import Mathlib

/-!
Verification of the Yohan backend's connection, heartbeat, message-pipeline,
context-gathering and generation-retry subsystems.

The definitions below are shallow embeddings of the Python source under
`yohan-backend/app/`: pure data transformations become Lean functions, the
stateful registries become explicit state passing, timestamps become integers,
and fallible external calls become explicit outcome parameters.
-/

set_option maxHeartbeats 1000000

namespace Yohan

/-! ## Generation retry (`LLMService._make_api_call_with_retry`, llm_service.py) -/
/-- Classified outcome of one attempt of the Anthropic API call, as the
Python code distinguishes them by exception class: success, `RateLimitError`,
`APIConnectionError`, `APIError` (client-side error, not retried), and the
catch-all `except Exception` branch. -/
inductive ApiOutcome where
  | success (content : String)
  | rateLimited
  | connectionError
  | apiError
  | unexpected
  deriving DecidableEq, Repr

/-- Result of the retry loop: the returned content together with the number of
attempts performed and the list of backoff delays slept, or the final error
with the same accounting. -/
inductive RetryResult where
  | ok (content : String) (attemptsUsed : Nat) (delays : List Nat)
  | err (kind : ApiOutcome) (attemptsUsed : Nat) (delays : List Nat)
  deriving DecidableEq, Repr

/-- One step of `_make_api_call_with_retry`'s `for attempt in range(retry_attempts)`
loop.  `outcomes n` is what the API call would do on attempt `n` (0-based);
`total` is `self.retry_attempts`; `fuel` is the number of loop iterations left.
On `RateLimitError`, `APIConnectionError` and the generic `except Exception`
branch the loop sleeps `base_retry_delay * 2 ** attempt` (only when
`attempt < total - 1`) and continues; on `APIError` it re-raises immediately;
when the loop ends it raises the last stored exception. -/
def retryGo (outcomes : Nat → ApiOutcome) (baseDelay total : Nat) :
    Nat → Nat → List Nat → Option ApiOutcome → RetryResult
  | _, 0, delays, lastExc => .err (lastExc.getD .unexpected) total delays
  | attempt, fuel + 1, delays, _ =>
    match outcomes attempt with
    | .success c => .ok c (attempt + 1) delays
    | .apiError => .err .apiError (attempt + 1) delays
    | o =>
      let delays' := if attempt < total - 1 then delays ++ [baseDelay * 2 ^ attempt] else delays
      retryGo outcomes baseDelay total (attempt + 1) fuel delays' (some o)

/-- `LLMService._make_api_call_with_retry` with `self.retry_attempts = 3`:
runs up to three attempts starting from attempt 0. -/
def makeApiCallWithRetry (outcomes : Nat → ApiOutcome) (baseDelay : Nat) : RetryResult :=
  retryGo outcomes baseDelay 3 0 3 [] none

/-- A classification on which the loop continues to the next attempt. -/
def RetriedOutcome (o : ApiOutcome) : Prop :=
  o = .rateLimited ∨ o = .connectionError ∨ o = .unexpected

/-- Concrete outcome sequence: the first attempt fails with the catch-all
`unknown` classification, every later attempt succeeds. -/
def unknownThenSuccess : Nat → ApiOutcome
  | 0 => .unexpected
  | _ + 1 => .success "ok"

/-- Concrete outcome sequence from the spec's own example:
`rate_limited, rate_limited, success`. -/
def rateLimitedTwiceThenSuccess : Nat → ApiOutcome
  | 0 => .rateLimited
  | 1 => .rateLimited
  | _ + 2 => .success "ok"

/-! ## Calendar events (`get_calendar_events`, calendar_service.py, and
`get_calendar_with_timeout` inside `gather_context`, comms.py) -/
/-- A parsed calendar event (`CalendarEvent` in schemas/calendar.py); times are
modelled as integers. -/
structure CalEvent where
  summary : String
  startTime : Int
  endTime : Int
  deriving DecidableEq, Repr

/-- One component of the parsed iCalendar feed as `get_calendar_events` walks
it: `isEvent` is whether `component.name == "VEVENT"`, and the start/end
properties may be missing. -/
structure RawComponent where
  isEvent : Bool
  dtstart : Option Int
  dtend : Option Int
  summary : String
  deriving DecidableEq, Repr

/-- The event-collection loop of `get_calendar_events`: skip non-VEVENT
components and events missing `dtstart`/`dtend`, and keep an event exactly
when its end time is strictly after `now`. -/
def collectFutureEvents (now : Int) : List RawComponent → List CalEvent
  | [] => []
  | c :: rest =>
    if c.isEvent then
      match c.dtstart, c.dtend with
      | some s, some e =>
        if now < e then ⟨c.summary, s, e⟩ :: collectFutureEvents now rest
        else collectFutureEvents now rest
      | _, _ => collectFutureEvents now rest
    else collectFutureEvents now rest

/-- Insert an event into a list sorted by start time, after all entries whose
start time is less than or equal to its own (the placement a stable sort
gives). -/
def insertByStart (e : CalEvent) : List CalEvent → List CalEvent
  | [] => [e]
  | f :: rest =>
    if f.startTime ≤ e.startTime then f :: insertByStart e rest
    else e :: f :: rest

/-- Stable insertion sort by start time, modelling Python's stable
`events.sort(key=lambda e: e.start_time)`. -/
def sortByStart (l : List CalEvent) : List CalEvent :=
  l.foldl (fun acc e => insertByStart e acc) []

/-- `get_calendar_events`: collect the events ending strictly after `now`, then
sort them ascending by start time. -/
def getCalendarEvents (now : Int) (comps : List RawComponent) : List CalEvent :=
  sortByStart (collectFutureEvents now comps)

/-- The calendar portion of the context gatherer: `get_calendar_with_timeout`
keeps only the first 10 events (`calendar_events[:10]`) of what
`get_calendar_events` returned. -/
def calendarPortion (now : Int) (comps : List RawComponent) : List CalEvent :=
  (getCalendarEvents now comps).take 10

/-- The typed events the fetch produced, before any filtering: every VEVENT
component carrying both a start and an end time. -/
def parsedEvents (comps : List RawComponent) : List CalEvent :=
  comps.filterMap fun c =>
    if c.isEvent then
      match c.dtstart, c.dtend with
      | some s, some e => some ⟨c.summary, s, e⟩
      | _, _ => none
    else none

/-- Modelled from the spec's words for comparison: exactly the fetched events
whose end time is strictly after `now`, sorted ascending by start time,
truncated to the first 10. -/
def specCalendarPortion (now : Int) (events : List CalEvent) : List CalEvent :=
  (sortByStart (events.filter fun e => decide (now < e.endTime))).take 10

/-- Concrete component list echoing the spec's example: one event already
ended, two upcoming ones given out of start order. -/
def demoComps : List RawComponent :=
  [⟨true, some 10, some (-1), "past"⟩,
   ⟨true, some 20, some 30, "later"⟩,
   ⟨true, some 5, some 15, "sooner"⟩,
   ⟨false, some 0, some 99, "not-an-event"⟩]

/-! ## Context gathering (`gather_context`, comms.py) -/
/-- The weather snapshot as `get_weather_with_timeout` repackages it. -/
structure WeatherSnapshot where
  temp : Int
  description : String
  location : String
  deriving DecidableEq, Repr

/-- Outcome of one sub-fetch: a value, or any failure (timeout, transport
error, parse error) — the code's `except Exception` treats them alike. -/
inductive FetchResult (α : Type) where
  | ok (val : α)
  | failed
  deriving DecidableEq, Repr

/-- The context bundle (`LLMContext` as `gather_context` fills it in). -/
structure ContextBundle where
  currentTime : Int
  location : String
  weather : Option WeatherSnapshot
  calendarEvents : List CalEvent
  deriving DecidableEq, Repr

def defaultLocation : String := "Des Moines, Iowa"

/-- `get_weather_with_timeout`: a failed or timed-out fetch degrades to
`None`. -/
def getWeatherWithTimeout (w : FetchResult WeatherSnapshot) : Option WeatherSnapshot :=
  match w with
  | .ok snap => some snap
  | .failed => none

/-- `get_calendar_with_timeout`: a failed or timed-out fetch degrades to `[]`;
a successful one is truncated to the first 10 events. -/
def getCalendarWithTimeout (now : Int) (c : FetchResult (List RawComponent)) :
    List CalEvent :=
  match c with
  | .ok comps => (getCalendarEvents now comps).take 10
  | .failed => []

/-- `gather_context`: run both sub-fetches, let the weather location (when
present and non-empty) override the static default, and assemble the bundle. -/
def gatherContext (now : Int) (w : FetchResult WeatherSnapshot)
    (c : FetchResult (List RawComponent)) : ContextBundle :=
  let wd := getWeatherWithTimeout w
  let loc :=
    match wd with
    | some snap => if snap.location ≠ "" then snap.location else defaultLocation
    | none => defaultLocation
  { currentTime := now
    location := loc
    weather := wd
    calendarEvents := getCalendarWithTimeout now c }

/-! ## Durable chat store (`ChatHistoryService`, chat_history_service.py) -/
/-- One persisted chat message; only the fields the pipeline logic branches on
are kept. -/
structure ChatMsg where
  role : String
  content : String
  deriving DecidableEq, Repr

/-- The durable message table: `(session_id, message)` rows in insertion
order, which coincides with timestamp order. -/
structure Store where
  msgs : List (String × ChatMsg)
  deriving DecidableEq, Repr

/-- `ChatHistoryService.add_message`: append one row. -/
def Store.append (st : Store) (sid : String) (m : ChatMsg) : Store :=
  ⟨st.msgs ++ [(sid, m)]⟩

/-- All messages of one session, in chronological order. -/
def Store.msgsOf (st : Store) (sid : String) : List ChatMsg :=
  (st.msgs.filter fun p => p.1 == sid).map Prod.snd

/-- The last `n` elements of a list, in order. -/
def lastN {α : Type _} (n : Nat) (l : List α) : List α :=
  l.drop (l.length - n)

/-- `ChatHistoryService.get_recent_messages`: the most recent `count` messages
of the session (queried newest-first, limited, then reversed back to
chronological order). -/
def getRecentMessages (st : Store) (sid : String) (count : Nat) : List ChatMsg :=
  lastN count (st.msgsOf sid)

/-! ## Message pipeline (`handle_llm_query` and `websocket_endpoint`, comms.py) -/
/-- Outbound frames the pipeline can emit.  The ack frame shape
(`message_id`, `status`) is modelled from the spec: `MessageAckMessage` and
`MessageAckPayload` are imported by comms.py but their declarations are
missing from schemas/websockets.py under src. -/
inductive Frame where
  | statusUpdate
  | chatHistory (msgs : List ChatMsg)
  | ack (msgId : String) (status : String)
  | llmResponse (content : String)
  | errorFrame (errType : String)
  deriving DecidableEq, Repr

/-- Observable side effects of the pipeline, in program order: a frame sent to
a session, a durable write, the generation call (with the conversation history
and current message it receives), and a context-aggregator run. -/
inductive Effect where
  | send (target : String) (frame : Frame)
  | persist (sid : String) (m : ChatMsg)
  | genCall (history : List ChatMsg) (current : String)
  | gatherCtx
  deriving DecidableEq, Repr

/-- The acks `handle_llm_query` sends at one point of the lifecycle: one frame
when a `message_id` was supplied, none otherwise. -/
def ackEffs (sid : String) (msgId : Option String) (status : String) : List Effect :=
  match msgId with
  | some m => [.send sid (.ack m status)]
  | none => []

/-- Where, if anywhere, the fallible body of `handle_llm_query`'s `try` block
raises: the user-message write, the generation call, or the assistant-message
write. -/
inductive FailPoint where
  | noFail
  | atPersistUser
  | atGenerate
  | atPersistAssistant
  deriving DecidableEq, Repr

/-- The conversation history the handler forwards to
`llm_service.generate_response`: the user message is persisted first, then the
last 20 messages of the session are read back. -/
def forwardedHistory (store : Store) (sid : String) (msg : String) : List ChatMsg :=
  getRecentMessages (store.append sid ⟨"user", msg⟩) sid 20

/-- `handle_llm_query`: validation, acks, persistence, generation and response
delivery, returning the effect trace in program order and the resulting store.
An empty message is rejected up front; otherwise the `received` and
`processing` acks are sent (when a `message_id` came with the query), the user
message is persisted, history is read back, the generation call is made, the
assistant reply is persisted and sent, and the `delivered` ack closes the
lifecycle; any exception inside the `try` block instead persists a best-effort
assistant error message, sends the `error` ack and an `llm_error` frame.  All
frames go to the originating session only
(`manager.send_to_session(session_id, ...)`). -/
def handleLLMQuery (sid msg : String) (msgId : Option String) (fp : FailPoint)
    (genContent : String) (store : Store) : List Effect × Store :=
  if msg = "" then
    ([.send sid (.errorFrame "validation_error")], store)
  else
    let pre := ackEffs sid msgId "received" ++ ackEffs sid msgId "processing"
    let errorPath := fun (before : List Effect) (st : Store) (emsg : String) =>
      (pre ++ before ++ [.persist sid ⟨"assistant", "Error: " ++ emsg⟩] ++
         ackEffs sid msgId "error" ++ [.send sid (.errorFrame "llm_error")],
       st.append sid ⟨"assistant", "Error: " ++ emsg⟩)
    match fp with
    | .atPersistUser => errorPath [] store "user message persist failed"
    | .atGenerate =>
      let st1 := store.append sid ⟨"user", msg⟩
      errorPath [.persist sid ⟨"user", msg⟩,
                 .genCall (getRecentMessages st1 sid 20) msg] st1 "generation failed"
    | .atPersistAssistant =>
      let st1 := store.append sid ⟨"user", msg⟩
      errorPath [.persist sid ⟨"user", msg⟩,
                 .genCall (getRecentMessages st1 sid 20) msg] st1
        "assistant message persist failed"
    | .noFail =>
      let st1 := store.append sid ⟨"user", msg⟩
      (pre ++ [.persist sid ⟨"user", msg⟩,
               .genCall (getRecentMessages st1 sid 20) msg,
               .persist sid ⟨"assistant", genContent⟩,
               .send sid (.llmResponse genContent)] ++
         ackEffs sid msgId "delivered",
       st1.append sid ⟨"assistant", genContent⟩)

/-- The rendering of a context bundle into the one-time system message
(`context_content` in `websocket_endpoint`). -/
def renderContext (ctx : ContextBundle) : String :=
  "Current session context:\nLocation: " ++ ctx.location ++
  "\nTime: " ++ toString ctx.currentTime ++ "\n\nWeather:\n" ++
  (match ctx.weather with
   | some w => "Temperature: " ++ toString w.temp ++ "\nConditions: " ++ w.description
   | none => "Weather data unavailable") ++
  "\n\nCalendar Events:\n" ++
  (match ctx.calendarEvents with
   | [] => "No upcoming events"
   | evs =>
     String.intercalate "\n"
       ((evs.take 5).map fun e => "- " ++ e.summary ++ " at " ++ toString e.startTime))

/-- The connection-establishment flow of `websocket_endpoint` after the
registry accepts the socket (session creation and connection-event logging are
elided): send the initial `status_update`, read the last 20 messages of the
session, send `chat_history` when any exist, and — only when none exist — run
the context aggregator and persist its rendering as a `system`-role message. -/
def connectFlow (sid : String) (w : FetchResult WeatherSnapshot)
    (c : FetchResult (List RawComponent)) (now : Int) (store : Store) :
    List Effect × Store :=
  let recent := getRecentMessages store sid 20
  if recent.isEmpty then
    ([.send sid .statusUpdate, .gatherCtx],
     store.append sid ⟨"system", renderContext (gatherContext now w c)⟩)
  else
    ([.send sid .statusUpdate, .send sid (.chatHistory recent)], store)

/-- The targets of all send effects of a trace, in order. -/
def sendTargets (effs : List Effect) : List String :=
  effs.filterMap fun e =>
    match e with
    | .send t _ => some t
    | _ => none

/-- The statuses of all acks carrying `message_id = m` in a trace, in order,
regardless of which session they were sent to. -/
def acksFor (m : String) (effs : List Effect) : List String :=
  effs.filterMap fun e =>
    match e with
    | .send _ (.ack m' status) => if m' == m then some status else none
    | _ => none

/-! ## History shaping in `LLMService.generate_response` (llm_service.py) -/
/-- The request `generate_response` builds for the API call from the
conversation history and current message: only the last 10 history entries are
considered; their `system`-role contents go to the instruction channel, their
`user`/`assistant` entries become the dialogue turns, and the current message
is appended as the final user turn. -/
def generatePrompt (history : List ChatMsg) (current : String) :
    List String × List ChatMsg :=
  let recent := lastN 10 history
  ((recent.filter fun mm => mm.role == "system").map ChatMsg.content,
   (recent.filter fun mm => mm.role == "user" || mm.role == "assistant") ++
     [⟨"user", current⟩])

/-- A session that already holds a system context message and 20 user turns. -/
def manyTurnsStore : Store :=
  ⟨("s1", ⟨"system", "ctx"⟩) :: List.replicate 20 ("s1", ⟨"user", "x"⟩)⟩

/-- A session holding its system context message and ten user turns: the next
write pushes the window past the system message. -/
def elevenTurnStore : Store :=
  ⟨("s1", ⟨"system", "ctx"⟩) :: List.replicate 10 ("s1", ⟨"user", "x"⟩)⟩

/-! ## Heartbeat monitor (`HeartbeatService`, heartbeat_service.py) -/
/-- A live connection as the heartbeat monitor sees it: the session id and
the `last_ping` timestamp (`Connection.last_ping`, refreshed by
`update_ping`). -/
structure HBConn where
  sid : String
  lastPing : Int
  deriving DecidableEq, Repr

/-- The monitor's view of the world: the manager's live connections and the
service's `pending_pings` table. -/
structure HBState where
  conns : List HBConn
  pending : List (String × Int)
  deriving DecidableEq, Repr

/-- Eviction of one timed-out session: `manager.disconnect_session` removes
the connection, `pending_pings.pop` drops its pending-ping entry. -/
def evictOne (sid : String) (st : HBState) : HBState :=
  ⟨st.conns.filter fun c => !(c.sid == sid),
   st.pending.filter fun p => !(p.1 == sid)⟩

/-- The sessions `_check_timeouts` collects: those whose elapsed time since
`last_ping` strictly exceeds the timeout threshold
(`time_since_ping > timeout_threshold`). -/
def timedOutSids (now threshold : Int) (conns : List HBConn) : List String :=
  (conns.filter fun c => decide (threshold < now - c.lastPing)).map HBConn.sid

/-- `HeartbeatService._check_timeouts`: evict every timed-out session. -/
def checkTimeouts (now threshold : Int) (st : HBState) : HBState :=
  (timedOutSids now threshold st.conns).foldl (fun s sid => evictOne sid s) st

/-- `HeartbeatService.handle_pong`: drop the pending-ping entry, and refresh
the connection's `last_ping` only when the session is still registered. -/
def handlePong (sid : String) (now : Int) (st : HBState) : HBState :=
  let pending := st.pending.filter fun p => !(p.1 == sid)
  let conns :=
    if st.conns.any fun c => c.sid == sid then
      st.conns.map fun c => if c.sid == sid then ⟨c.sid, now⟩ else c
    else st.conns
  ⟨conns, pending⟩

/-- One `pending_pings[session_id] = current_time` dict write of the probe
phase. -/
def setPending (sid : String) (now : Int) (pend : List (String × Int)) :
    List (String × Int) :=
  if pend.any fun p => p.1 == sid then
    pend.map fun p => if p.1 == sid then (sid, now) else p
  else pend ++ [(sid, now)]

/-- `HeartbeatService._send_pings`: ping every live session and record the
probe time; connections are unchanged. -/
def sendPings (now : Int) (st : HBState) : HBState :=
  ⟨st.conns, st.conns.foldl (fun pend c => setPending c.sid now pend) st.pending⟩

/-- One monitor round for a session that answers: probe at `r.1`, the pong
arrives at `r.2.1`, the reap check runs at `r.2.2`. -/
def runRounds (sid : String) (thr : Int) (st : HBState) :
    List (Int × Int × Int) → HBState
  | [] => st
  | r :: rest =>
    runRounds sid thr
      (checkTimeouts r.2.2 thr (handlePong sid r.2.1 (sendPings r.1 st))) rest

/-! ## Connection registry (`ConnectionManager`, websocket_manager.py) -/
/-- The registry state: `active_connections` as ordered
`(session_id, user_id)` rows and `user_connections` as ordered
`(user_id, session-id list)` rows, both modelling Python's insertion-ordered
dicts. -/
structure ManagerState where
  active : List (String × String)
  userConns : List (String × List String)
  deriving DecidableEq, Repr

def emptyManager : ManagerState := ⟨[], []⟩

/-- Dict read `d.get(k)` / `k in d` over an insertion-ordered table. -/
def lookupA {β : Type _} (k : String) : List (String × β) → Option β
  | [] => none
  | p :: rest => if p.1 = k then some p.2 else lookupA k rest

/-- Dict write `d[k] = v` for a key already present (value replaced in
place). -/
def updateA {β : Type _} (k : String) (v : β) (l : List (String × β)) :
    List (String × β) :=
  l.map fun p => if p.1 = k then (k, v) else p

/-- Dict delete `del d[k]`. -/
def deleteA {β : Type _} (k : String) (l : List (String × β)) :
    List (String × β) :=
  l.filter fun p => !(p.1 == k)

/-- `ConnectionManager.connect`: register the fresh session and add it to its
user's bucket, creating the bucket when absent. -/
def connect (sid uid : String) (st : ManagerState) : ManagerState :=
  let userConns :=
    match lookupA uid st.userConns with
    | none => st.userConns ++ [(uid, [sid])]
    | some sids => updateA uid (sids ++ [sid]) st.userConns
  ⟨st.active ++ [(sid, uid)], userConns⟩

/-- `ConnectionManager._remove_connection`: delete the session from the
primary table, remove it from its user's bucket, and delete the bucket when it
became empty. -/
def removeConnection (sid uid : String) (st : ManagerState) : ManagerState :=
  let active := deleteA sid st.active
  let userConns :=
    match lookupA uid st.userConns with
    | none => st.userConns
    | some sids =>
      let rem := sids.erase sid
      if rem = [] then deleteA uid st.userConns
      else updateA uid rem st.userConns
  ⟨active, userConns⟩

/-- `ConnectionManager.disconnect_session`: a no-op for an unknown session,
otherwise `_remove_connection` with the session's registered user. -/
def disconnectSession (sid : String) (st : ManagerState) : ManagerState :=
  match lookupA sid st.active with
  | none => st
  | some uid => removeConnection sid uid st

/-- `ConnectionManager.get_connection_count`. -/
def getConnectionCount (st : ManagerState) : Nat :=
  st.active.length

/-- The session ids of the primary table, in order. -/
def activeSids (st : ManagerState) : List String :=
  st.active.map Prod.fst

/-- One registry operation of the claim's operation sequences. -/
inductive RegOp where
  | connect (sid uid : String)
  | disconnect (sid : String)
  deriving DecidableEq, Repr

/-- Run a sequence of registry operations. -/
def runOps (st : ManagerState) : List RegOp → ManagerState
  | [] => st
  | .connect sid uid :: rest => runOps (connect sid uid st) rest
  | .disconnect sid :: rest => runOps (disconnectSession sid st) rest

/-- The session ids of the connect operations of a sequence, in order. -/
def connectSids : List RegOp → List String
  | [] => []
  | .connect sid _ :: rest => sid :: connectSids rest
  | .disconnect _ :: rest => connectSids rest

/-- Spec-side count: the connects that have no matching (later) disconnect. -/
def unmatchedConnects : List RegOp → List String
  | [] => []
  | .connect sid _ :: rest =>
    if RegOp.disconnect sid ∈ rest then unmatchedConnects rest
    else sid :: unmatchedConnects rest
  | .disconnect _ :: rest => unmatchedConnects rest

/-! ### The registry's index-consistency invariant -/
/-- Consistency of the primary table and the per-user index: unique session
ids, unique bucket keys, no empty bucket, every bucketed session registered
under that user, and every registered session present in its user's bucket. -/
structure Inv (st : ManagerState) : Prop where
  activeNodup : (activeSids st).Nodup
  userKeysNodup : (st.userConns.map Prod.fst).Nodup
  bucketsNonempty : ∀ uid sids, (uid, sids) ∈ st.userConns → sids ≠ []
  bucketsNodup : ∀ uid sids, (uid, sids) ∈ st.userConns → sids.Nodup
  bucketsSound : ∀ uid sids, (uid, sids) ∈ st.userConns →
    ∀ sid ∈ sids, lookupA sid st.active = some uid
  activeIndexed : ∀ sid uid, (sid, uid) ∈ st.active →
    ∃ sids, lookupA uid st.userConns = some sids ∧ sid ∈ sids

/-- Concrete operation sequence: two connects for one user, one matching
disconnect, one disconnect of an unknown session id. -/
def demoOps : List RegOp :=
  [.connect "a" "u", .connect "b" "u", .disconnect "a", .disconnect "zzz"]

/-- **C3 (counterexample).** The claim says retries happen on `rate_limited`
and `connection_error` classifications *only*, so an attempt failing with any
other classification should not be followed by a second attempt.  But on the
sequence whose first attempt fails with the catch-all `unknown` classification
(which is neither `rate_limited`, `connection_error`, nor a success), the code
performs a second attempt, sleeps the backoff delay, and succeeds with 2
attempts used. -/
theorem retry_unknown_is_retried_cex :
    makeApiCallWithRetry unknownThenSuccess 1 = .ok "ok" 2 [1] ∧
    unknownThenSuccess 0 ≠ .rateLimited ∧
    unknownThenSuccess 0 ≠ .connectionError ∧
    (∀ c, unknownThenSuccess 0 ≠ .success c) := by
  refine ⟨rfl, by decide, by decide, ?_⟩
  intro c h
  simp [unknownThenSuccess] at h

/-- **C3 (amended).** The generation call performs up to 3 attempts with
exponential backoff delay `base_delay * 2 ^ attempt` on the `rate_limited`,
`connection_error` *and* `unknown` classifications; a `client_error`
(`APIError`) classification aborts on the attempt where it occurs, with no
further attempt and no additional backoff sleep. -/
theorem retry_policy (f : Nat → ApiOutcome) (base : Nat) :
    (f 0 = .apiError → makeApiCallWithRetry f base = .err .apiError 1 []) ∧
    (∀ c, f 0 = .success c → makeApiCallWithRetry f base = .ok c 1 []) ∧
    (RetriedOutcome (f 0) → f 1 = .apiError →
      makeApiCallWithRetry f base = .err .apiError 2 [base]) ∧
    (∀ c, RetriedOutcome (f 0) → f 1 = .success c →
      makeApiCallWithRetry f base = .ok c 2 [base]) ∧
    (∀ c, RetriedOutcome (f 0) → RetriedOutcome (f 1) → f 2 = .success c →
      makeApiCallWithRetry f base = .ok c 3 [base, base * 2]) ∧
    (RetriedOutcome (f 0) → RetriedOutcome (f 1) → f 2 = .apiError →
      makeApiCallWithRetry f base = .err .apiError 3 [base, base * 2]) ∧
    (RetriedOutcome (f 0) → RetriedOutcome (f 1) → RetriedOutcome (f 2) →
      makeApiCallWithRetry f base = .err (f 2) 3 [base, base * 2]) := by
  have hcase : ∀ o : ApiOutcome, RetriedOutcome o →
      o = .rateLimited ∨ o = .connectionError ∨ o = .unexpected := fun _ h => h
  refine ⟨?_, ?_, ?_, ?_, ?_, ?_, ?_⟩
  · intro h0
    simp [makeApiCallWithRetry, retryGo, h0]
  · intro c h0
    simp [makeApiCallWithRetry, retryGo, h0]
  · intro h0 h1
    rcases hcase _ h0 with h | h | h <;>
      simp [makeApiCallWithRetry, retryGo, h, h1]
  · intro c h0 h1
    rcases hcase _ h0 with h | h | h <;>
      simp [makeApiCallWithRetry, retryGo, h, h1]
  · intro c h0 h1 h2
    rcases hcase _ h0 with h | h <;> rcases hcase _ h1 with h' | h' <;>
      first
      | (rcases h with h | h <;> rcases h' with h' | h' <;>
          simp [makeApiCallWithRetry, retryGo, h, h', h2])
      | (try rcases h with h | h) <;> (try rcases h' with h' | h') <;>
          simp [makeApiCallWithRetry, retryGo, h, h', h2]
  · intro h0 h1 h2
    rcases hcase _ h0 with h | h | h <;> rcases hcase _ h1 with h' | h' | h' <;>
      simp [makeApiCallWithRetry, retryGo, h, h', h2]
  · intro h0 h1 h2
    rcases hcase _ h0 with h | h | h <;> rcases hcase _ h1 with h' | h' | h' <;>
      rcases hcase _ h2 with h'' | h'' | h'' <;>
      simp [makeApiCallWithRetry, retryGo, h, h', h'']

/-- Witness for `retry_policy`: the spec's own scenario
`rate_limited, rate_limited, success` succeeds with exactly 3 attempts and
backoff delays `[1, 2]`. -/
theorem retry_policy_witness :
    makeApiCallWithRetry rateLimitedTwiceThenSuccess 1 = .ok "ok" 3 [1, 2] :=
  (retry_policy rateLimitedTwiceThenSuccess 1).2.2.2.2.1 "ok"
    (Or.inl rfl) (Or.inl rfl) rfl

theorem collectFutureEvents_eq_filter (now : Int) (comps : List RawComponent) :
    collectFutureEvents now comps =
      (parsedEvents comps).filter fun e => decide (now < e.endTime) := by
  induction comps with
  | nil => rfl
  | cons c rest ih =>
    unfold collectFutureEvents parsedEvents
    by_cases hev : c.isEvent
    · rcases hs : c.dtstart with _ | s <;> rcases he : c.dtend with _ | e <;>
        simp_all [parsedEvents]
      by_cases hfut : now < e <;> simp_all
    · simp_all [parsedEvents]

theorem mem_insertByStart {x e : CalEvent} {l : List CalEvent} :
    x ∈ insertByStart e l ↔ x = e ∨ x ∈ l := by
  induction l with
  | nil => simp [insertByStart]
  | cons f rest ih =>
    unfold insertByStart
    by_cases h : f.startTime ≤ e.startTime
    · simp [h, ih]
      tauto
    · simp [h, ih]

theorem mem_sortByStart_aux {x : CalEvent} (l acc : List CalEvent) :
    x ∈ l.foldl (fun acc e => insertByStart e acc) acc ↔ x ∈ acc ∨ x ∈ l := by
  induction l generalizing acc with
  | nil => simp
  | cons e rest ih =>
    simp only [List.foldl_cons, ih, mem_insertByStart, List.mem_cons]
    tauto

theorem mem_sortByStart {x : CalEvent} {l : List CalEvent} :
    x ∈ sortByStart l ↔ x ∈ l := by
  unfold sortByStart
  rw [mem_sortByStart_aux]
  simp

theorem sorted_insertByStart {e : CalEvent} {l : List CalEvent}
    (h : List.Sorted (fun a b : CalEvent => a.startTime ≤ b.startTime) l) :
    List.Sorted (fun a b : CalEvent => a.startTime ≤ b.startTime) (insertByStart e l) := by
  induction l with
  | nil => simp [insertByStart]
  | cons f rest ih =>
    rw [List.sorted_cons] at h
    unfold insertByStart
    by_cases hle : f.startTime ≤ e.startTime
    · simp only [hle, if_true]
      rw [List.sorted_cons]
      refine ⟨?_, ih h.2⟩
      intro b hb
      rcases mem_insertByStart.mp hb with rfl | hb
      · exact hle
      · exact h.1 b hb
    · simp only [hle, if_false]
      rw [List.sorted_cons]
      refine ⟨?_, List.sorted_cons.mpr h⟩
      intro b hb
      rcases List.mem_cons.mp hb with rfl | hb
      · omega
      · exact le_trans (by omega) (h.1 b hb)

theorem sorted_sortByStart_aux (l acc : List CalEvent)
    (hacc : List.Sorted (fun a b : CalEvent => a.startTime ≤ b.startTime) acc) :
    List.Sorted (fun a b : CalEvent => a.startTime ≤ b.startTime)
      (l.foldl (fun acc e => insertByStart e acc) acc) := by
  induction l generalizing acc with
  | nil => simpa using hacc
  | cons e rest ih =>
    simp only [List.foldl_cons]
    exact ih _ (sorted_insertByStart hacc)

theorem sorted_sortByStart (l : List CalEvent) :
    List.Sorted (fun a b : CalEvent => a.startTime ≤ b.startTime) (sortByStart l) :=
  sorted_sortByStart_aux l [] (by simp)

/-- **C7.** For every fetched component list and fetch time `now`, the context
gatherer's calendar portion is exactly the parsed events whose end time is
strictly after `now`, sorted ascending by start time and truncated to the
first 10: it equals the spec-side description, is sorted, contains only
future-ending events, and has at most 10 entries. -/
theorem calendar_portion_correct (now : Int) (comps : List RawComponent) :
    calendarPortion now comps = specCalendarPortion now (parsedEvents comps) ∧
    List.Sorted (fun a b : CalEvent => a.startTime ≤ b.startTime)
      (calendarPortion now comps) ∧
    (∀ e ∈ calendarPortion now comps, now < e.endTime) ∧
    (calendarPortion now comps).length ≤ 10 := by
  have heq : calendarPortion now comps = specCalendarPortion now (parsedEvents comps) := by
    unfold calendarPortion specCalendarPortion getCalendarEvents
    rw [collectFutureEvents_eq_filter]
  refine ⟨heq, ?_, ?_, ?_⟩
  · exact List.Pairwise.sublist (List.take_sublist 10 _) (sorted_sortByStart _)
  · intro e he
    have hmem : e ∈ sortByStart (collectFutureEvents now comps) :=
      List.mem_of_mem_take he
    have : e ∈ collectFutureEvents now comps := mem_sortByStart.mp hmem
    rw [collectFutureEvents_eq_filter] at this
    have := List.of_mem_filter this
    simpa using this
  · show ((getCalendarEvents now comps).take 10).length ≤ 10
    exact List.length_take_le 10 _

/-- Witness for `calendar_portion_correct`: on the demo feed at time 0 the
calendar portion is the two future events in ascending start order, and the
spec-side description agrees. -/
theorem calendar_portion_correct_witness :
    calendarPortion 0 demoComps = [⟨"sooner", 5, 15⟩, ⟨"later", 20, 30⟩] ∧
    specCalendarPortion 0 (parsedEvents demoComps) = [⟨"sooner", 5, 15⟩, ⟨"later", 20, 30⟩] := by
  have h := (calendar_portion_correct 0 demoComps).1
  refine ⟨by decide, ?_⟩
  rw [← h]
  decide

/-- **C8.** The context gatherer always produces a bundle whose weather field
depends only on the weather fetch and whose calendar field depends only on the
calendar fetch: a failed weather fetch yields `weather = none` with the
calendar portion still populated from its own fetch, a failed calendar fetch
yields `calendar = []` with the weather portion still populated, and neither
failure affects the other's result. -/
theorem gather_context_isolation (now : Int) (w : FetchResult WeatherSnapshot)
    (c : FetchResult (List RawComponent)) :
    (gatherContext now w c).weather = getWeatherWithTimeout w ∧
    (gatherContext now w c).calendarEvents = getCalendarWithTimeout now c ∧
    (w = .failed → (gatherContext now w c).weather = none) ∧
    (c = .failed → (gatherContext now w c).calendarEvents = []) ∧
    (∀ snap, w = .ok snap → (gatherContext now w c).weather = some snap) ∧
    (∀ comps, c = .ok comps →
      (gatherContext now w c).calendarEvents = (getCalendarEvents now comps).take 10) := by
  refine ⟨rfl, rfl, ?_, ?_, ?_, ?_⟩
  · rintro rfl; rfl
  · rintro rfl; rfl
  · rintro snap rfl; rfl
  · rintro comps rfl; rfl

/-- Witness for `gather_context_isolation`: with the weather fetch failed and
the demo calendar feed succeeding, the bundle has no weather but both future
events. -/
theorem gather_context_isolation_witness :
    (gatherContext 0 .failed (.ok demoComps)).weather = none ∧
    (gatherContext 0 .failed (.ok demoComps)).calendarEvents =
      [⟨"sooner", 5, 15⟩, ⟨"later", 20, 30⟩] := by
  have h := gather_context_isolation 0 .failed (.ok demoComps)
  refine ⟨h.2.2.1 rfl, ?_⟩
  rw [h.2.2.2.2.2 demoComps rfl]
  rfl

/-- **C1.** For every `llm_query` carrying a `message_id`, every frame the
handler sends (acks, the response, error frames) goes to the originating
session, and the acks for that id are exactly
`received, processing, terminal` in that order, with the single terminal ack
`delivered` exactly when the generation-and-persist path succeeded and `error`
on any failure inside it. -/
theorem llm_query_ack_lifecycle (sid msg m : String) (fp : FailPoint)
    (gen : String) (store : Store) (hmsg : msg ≠ "") :
    (∀ t ∈ sendTargets (handleLLMQuery sid msg (some m) fp gen store).1, t = sid) ∧
    acksFor m (handleLLMQuery sid msg (some m) fp gen store).1 =
      ["received", "processing", if fp = .noFail then "delivered" else "error"] := by
  cases fp <;>
    simp [handleLLMQuery, hmsg, ackEffs, sendTargets, acksFor]

/-- Witness for `llm_query_ack_lifecycle`: a concrete successful query whose
acks are `received, processing, delivered` and whose frames all target the
originating session. -/
theorem llm_query_ack_lifecycle_witness :
    (∀ t ∈ sendTargets (handleLLMQuery "s1" "Hi" (some "m1") .noFail "reply" ⟨[]⟩).1,
      t = "s1") ∧
    acksFor "m1" (handleLLMQuery "s1" "Hi" (some "m1") .noFail "reply" ⟨[]⟩).1 =
      ["received", "processing", "delivered"] := by
  have h := llm_query_ack_lifecycle "s1" "Hi" "m1" .noFail "reply" ⟨[]⟩ (by decide)
  exact ⟨h.1, h.2⟩

/-- **C4 (counterexample).** The claim rejects whitespace-only messages, but
the code's test is Python truthiness (`if not user_message`), which a
single-space message passes: the handler proceeds through the full lifecycle —
acks are sent, the whitespace message is persisted, the generation call is
made — and no `validation_error` frame is emitted. -/
theorem whitespace_query_proceeds_cex :
    handleLLMQuery "s1" " " (some "m1") .noFail "reply" ⟨[]⟩ =
      ([.send "s1" (.ack "m1" "received"),
        .send "s1" (.ack "m1" "processing"),
        .persist "s1" ⟨"user", " "⟩,
        .genCall [⟨"user", " "⟩] " ",
        .persist "s1" ⟨"assistant", "reply"⟩,
        .send "s1" (.llmResponse "reply"),
        .send "s1" (.ack "m1" "delivered")],
       ⟨[("s1", ⟨"user", " "⟩), ("s1", ⟨"assistant", "reply"⟩)]⟩) := by
  decide

/-- **C4 (amended).** Exactly when the message is the empty string, the
handler sends a single `validation_error` frame to the originating session and
stops with no side effects: no ack, no persisted message, no generation call,
and an unchanged store. -/
theorem empty_query_validation (sid : String) (msgId : Option String)
    (fp : FailPoint) (gen : String) (store : Store) :
    handleLLMQuery sid "" msgId fp gen store =
      ([.send sid (.errorFrame "validation_error")], store) := by
  simp [handleLLMQuery]

/-- Witness for `empty_query_validation` at concrete inputs. -/
theorem empty_query_validation_witness :
    handleLLMQuery "s1" "" (some "m1") .noFail "reply" ⟨[]⟩ =
      ([.send "s1" (.errorFrame "validation_error")], ⟨[]⟩) :=
  empty_query_validation "s1" (some "m1") .noFail "reply" ⟨[]⟩

/-! ## Store lemmas -/
theorem msgsOf_append_same (st : Store) (sid : String) (m : ChatMsg) :
    (st.append sid m).msgsOf sid = st.msgsOf sid ++ [m] := by
  simp [Store.append, Store.msgsOf]

theorem msgsOf_eq_nil_of_fresh (st : Store) (sid : String)
    (h : ∀ m, (sid, m) ∉ st.msgs) : st.msgsOf sid = [] := by
  unfold Store.msgsOf
  have : st.msgs.filter (fun p => p.1 == sid) = [] := by
    rw [List.filter_eq_nil_iff]
    intro p hp hbeq
    have h1 : p.1 = sid := by simpa using hbeq
    exact h p.2 (by simpa [← h1] using hp)
  rw [this]
  rfl

theorem lastN_eq_self {α : Type _} (n : Nat) (l : List α) (h : l.length ≤ n) :
    lastN n l = l := by
  simp [lastN, Nat.sub_eq_zero_of_le h]

theorem lastN_ne_nil {α : Type _} (n : Nat) (hn : 0 < n) (l : List α)
    (h : l ≠ []) : lastN n l ≠ [] := by
  intro hcon
  rw [lastN, List.drop_eq_nil_iff] at hcon
  have : 0 < l.length := List.length_pos.mpr h
  omega

theorem lastN_append_singleton {α : Type _} (n : Nat) (hn : 1 ≤ n)
    (l : List α) (x : α) : lastN n (l ++ [x]) = lastN (n - 1) l ++ [x] := by
  have hlen : (l ++ [x]).length - n = l.length - (n - 1) := by
    simp [List.length_append]
    omega
  unfold lastN
  rw [List.drop_append_eq_append_drop, hlen]
  have h0 : l.length - (n - 1) - l.length = 0 := by omega
  rw [h0]
  rfl

theorem lastN_lastN {α : Type _} (m n : Nat) (l : List α) (h : m ≤ n) :
    lastN m (lastN n l) = lastN m l := by
  unfold lastN
  simp only [List.length_drop, List.drop_drop]
  congr 1
  omega

/-- **C2 (counterexample).** The context-aggregator run and the system-message
persist do not happen when the session's first `llm_query` turn is processed:
they happen at connection establishment.  Concretely: connecting with a fresh
session runs the aggregator and persists the system message although zero
`llm_query` turns have been processed; the first query's own processing trace
contains no aggregator run; and in a session holding a system message plus 20
user turns, the history forwarded on the next turn no longer contains the
system message. -/
theorem context_at_connect_cex :
    (connectFlow "s1" .failed .failed 0 ⟨[]⟩).1 =
      [.send "s1" .statusUpdate, .gatherCtx] ∧
    ((connectFlow "s1" .failed .failed 0 ⟨[]⟩).2).msgsOf "s1" =
      [⟨"system", renderContext (gatherContext 0 .failed .failed)⟩] ∧
    Effect.gatherCtx ∉
      (handleLLMQuery "s1" "Hi" (some "m1") .noFail "reply"
        (connectFlow "s1" .failed .failed 0 ⟨[]⟩).2).1 ∧
    ChatMsg.mk "system" "ctx" ∉ forwardedHistory manyTurnsStore "s1" "next" := by
  refine ⟨rfl, rfl, by decide, by decide⟩

/-- **C2 (amended).** The one-time aggregator run and the persistence of its
rendering as a `system`-role message happen exactly at connection
establishment when the session has no prior messages (not when the first
`llm_query` turn is processed — query processing never runs the aggregator);
on later turns the persisted system message is included in the history
forwarded to the generation call as long as the session, including the new
user message, holds at most 20 messages (the handler forwards only the last
20). -/
theorem context_gathering_at_connect (sid : String)
    (w : FetchResult WeatherSnapshot) (c : FetchResult (List RawComponent))
    (now : Int) (store : Store) :
    (store.msgsOf sid = [] →
      Effect.gatherCtx ∈ (connectFlow sid w c now store).1 ∧
      ((connectFlow sid w c now store).2).msgsOf sid =
        [⟨"system", renderContext (gatherContext now w c)⟩]) ∧
    (store.msgsOf sid ≠ [] →
      Effect.gatherCtx ∉ (connectFlow sid w c now store).1 ∧
      (connectFlow sid w c now store).2 = store) ∧
    (∀ msg msgId fp gen,
      Effect.gatherCtx ∉ (handleLLMQuery sid msg msgId fp gen store).1) ∧
    (∀ msg sysContent rest, store.msgsOf sid = ⟨"system", sysContent⟩ :: rest →
      (store.msgsOf sid).length + 1 ≤ 20 →
      ChatMsg.mk "system" sysContent ∈ forwardedHistory store sid msg) := by
  refine ⟨?_, ?_, ?_, ?_⟩
  · intro h
    have hrec : getRecentMessages store sid 20 = [] := by
      simp [getRecentMessages, h, lastN]
    refine ⟨?_, ?_⟩
    · simp [connectFlow, hrec]
    · simp [connectFlow, hrec, msgsOf_append_same, h]
  · intro h
    have hrec : getRecentMessages store sid 20 ≠ [] := by
      unfold getRecentMessages
      exact lastN_ne_nil 20 (by omega) _ h
    rcases hgr : getRecentMessages store sid 20 with _ | ⟨a, t⟩
    · exact absurd hgr hrec
    · constructor <;> simp [connectFlow, hgr]
  · intro msg msgId fp gen
    by_cases h : msg = "" <;> cases fp <;> cases msgId <;>
      simp [handleLLMQuery, ackEffs, h]
  · intro msg sysContent rest hstore hlen
    unfold forwardedHistory getRecentMessages
    rw [msgsOf_append_same, lastN_eq_self]
    · rw [hstore]
      simp
    · rw [List.length_append]
      simpa using hlen

/-- Witness for `context_gathering_at_connect`: a fresh connect persists the
rendered context as the session's system message, and on a session holding
just that system message the next turn's forwarded history still contains
it. -/
theorem context_gathering_at_connect_witness :
    (Effect.gatherCtx ∈ (connectFlow "s1" .failed .failed 0 ⟨[]⟩).1 ∧
      ((connectFlow "s1" .failed .failed 0 ⟨[]⟩).2).msgsOf "s1" =
        [⟨"system", renderContext (gatherContext 0 .failed .failed)⟩]) ∧
    ChatMsg.mk "system" "ctx" ∈
      forwardedHistory ⟨[("s1", ⟨"system", "ctx"⟩)]⟩ "s1" "q" := by
  constructor
  · exact (context_gathering_at_connect "s1" .failed .failed 0 ⟨[]⟩).1 rfl
  · exact (context_gathering_at_connect "s1" .failed .failed 0
      ⟨[("s1", ⟨"system", "ctx"⟩)]⟩).2.2.2 "q" "ctx" [] rfl (by decide)

/-- **C9.** Because every connect generates a fresh session id absent from the
durable store, the history read performed at connection time returns the empty
list, no `chat_history` frame is emitted, and a system-role context message is
persisted for the new connection even though no query was ever sent. -/
theorem fresh_session_connect (sid : String) (w : FetchResult WeatherSnapshot)
    (c : FetchResult (List RawComponent)) (now : Int) (store : Store)
    (hfresh : ∀ m, (sid, m) ∉ store.msgs) :
    getRecentMessages store sid 20 = [] ∧
    (∀ t msgs, Effect.send t (.chatHistory msgs) ∉ (connectFlow sid w c now store).1) ∧
    ((connectFlow sid w c now store).2).msgsOf sid =
      [⟨"system", renderContext (gatherContext now w c)⟩] := by
  have h0 : store.msgsOf sid = [] := msgsOf_eq_nil_of_fresh store sid hfresh
  have hrec : getRecentMessages store sid 20 = [] := by
    simp [getRecentMessages, h0, lastN]
  refine ⟨hrec, ?_, ?_⟩
  · intro t msgs
    simp [connectFlow, hrec]
  · simp [connectFlow, hrec, msgsOf_append_same, h0]

/-- Witness for `fresh_session_connect`: a store holding only another
session's rows is fresh for session `s1`. -/
theorem fresh_session_connect_witness :
    getRecentMessages ⟨[("other", ⟨"user", "x"⟩)]⟩ "s1" 20 = [] ∧
    ((connectFlow "s1" .failed .failed 0 ⟨[("other", ⟨"user", "x"⟩)]⟩).2).msgsOf "s1" =
      [⟨"system", renderContext (gatherContext 0 .failed .failed)⟩] := by
  have h := fresh_session_connect "s1" .failed .failed 0
    ⟨[("other", ⟨"user", "x"⟩)]⟩ (by intro m; simp)
  exact ⟨h.1, h.2.2⟩

/-- **C10.** In every successful query lifecycle the generation backend
receives the current user message twice — once inside the replayed history
window (the user write happens before the history read, so the most recent
entry is the current message) and once appended as the final user turn — and
only the last 10 history entries are forwarded, so once the session holds more
than 10 messages its earliest entries are dropped from the window; in
particular when the earliest message is the session's only system-role context
message, nothing at all reaches the instruction channel. -/
theorem generation_input_duplication (store : Store) (sid msg : String)
    (msgId : Option String) (gen : String) (hmsg : msg ≠ "") :
    Effect.genCall (forwardedHistory store sid msg) msg ∈
      (handleLLMQuery sid msg msgId .noFail gen store).1 ∧
    (∃ pre, (generatePrompt (forwardedHistory store sid msg) msg).2 =
        pre ++ [⟨"user", msg⟩] ∧ ChatMsg.mk "user" msg ∈ pre) ∧
    (∀ sysContent rest,
      (store.append sid ⟨"user", msg⟩).msgsOf sid = ⟨"system", sysContent⟩ :: rest →
      (∀ mm ∈ rest, mm.role ≠ "system") →
      10 < ((store.append sid ⟨"user", msg⟩).msgsOf sid).length →
      (generatePrompt (forwardedHistory store sid msg) msg).1 = []) := by
  have hrecent : lastN 10 (forwardedHistory store sid msg) =
      lastN 9 (store.msgsOf sid) ++ [⟨"user", msg⟩] := by
    unfold forwardedHistory getRecentMessages
    rw [msgsOf_append_same, lastN_lastN 10 20 _ (by omega),
      lastN_append_singleton 10 (by omega)]
  refine ⟨?_, ?_, ?_⟩
  · cases msgId <;> simp [handleLLMQuery, hmsg, ackEffs, forwardedHistory]
  · refine ⟨(lastN 10 (forwardedHistory store sid msg)).filter
      (fun mm => mm.role == "user" || mm.role == "assistant"), rfl, ?_⟩
    rw [hrecent, List.filter_append]
    simp
  · intro sysContent rest hhead hrole hlen
    have hwin : lastN 10 (forwardedHistory store sid msg) =
        lastN 10 ((store.append sid ⟨"user", msg⟩).msgsOf sid) := by
      unfold forwardedHistory getRecentMessages
      exact lastN_lastN 10 20 _ (by omega)
    have hsub : ∀ mm ∈ lastN 10 ((store.append sid ⟨"user", msg⟩).msgsOf sid),
        mm ∈ rest := by
      rw [hhead]
      intro mm hmm
      rw [hhead] at hlen
      unfold lastN at hmm
      obtain ⟨j, hj⟩ : ∃ j, (ChatMsg.mk "system" sysContent :: rest).length - 10 = j + 1 := by
        refine ⟨(ChatMsg.mk "system" sysContent :: rest).length - 11, ?_⟩
        simp at hlen ⊢
        omega
      rw [hj, List.drop_succ_cons] at hmm
      exact List.drop_subset _ _ hmm
    have hfilter : (lastN 10 (forwardedHistory store sid msg)).filter
        (fun mm => mm.role == "system") = [] := by
      rw [hwin, List.filter_eq_nil_iff]
      intro mm hmm hbeq
      exact hrole mm (hsub mm hmm) (by simpa using hbeq)
    show ((lastN 10 (forwardedHistory store sid msg)).filter _).map _ = []
    rw [hfilter]
    rfl

/-- Witness for `generation_input_duplication`: on the eleven-message session
the next query's generation call receives the forwarded history, and no
system content reaches the instruction channel. -/
theorem generation_input_duplication_witness :
    Effect.genCall (forwardedHistory elevenTurnStore "s1" "q") "q" ∈
      (handleLLMQuery "s1" "q" (some "m1") .noFail "r" elevenTurnStore).1 ∧
    (generatePrompt (forwardedHistory elevenTurnStore "s1" "q") "q").1 = [] := by
  have h := generation_input_duplication elevenTurnStore "s1" "q" (some "m1") "r"
    (by decide)
  refine ⟨h.1, ?_⟩
  exact h.2.2 "ctx" (List.replicate 10 ⟨"user", "x"⟩ ++ [⟨"user", "q"⟩])
    (by decide) (by decide) (by decide)

theorem foldl_evictOne (L : List String) (st : HBState) :
    (L.foldl (fun s sid => evictOne sid s) st).conns =
      st.conns.filter (fun c => !(L.contains c.sid)) ∧
    (L.foldl (fun s sid => evictOne sid s) st).pending =
      st.pending.filter (fun p => !(L.contains p.1)) := by
  induction L generalizing st with
  | nil => simp
  | cons a L ih =>
    obtain ⟨ih1, ih2⟩ := ih (evictOne a st)
    rw [List.foldl_cons]
    constructor
    · rw [ih1]
      show (st.conns.filter _).filter _ = _
      rw [List.filter_filter]
      apply List.filter_congr
      intro c _
      by_cases h1 : c.sid = a <;> by_cases h2 : c.sid ∈ L <;> simp [h1, h2]
    · rw [ih2]
      show (st.pending.filter _).filter _ = _
      rw [List.filter_filter]
      apply List.filter_congr
      intro p _
      by_cases h1 : p.1 = a <;> by_cases h2 : p.1 ∈ L <;> simp [h1, h2]

theorem mem_timedOutSids {now thr : Int} {conns : List HBConn} {s : String} :
    s ∈ timedOutSids now thr conns ↔
      ∃ c ∈ conns, c.sid = s ∧ thr < now - c.lastPing := by
  simp only [timedOutSids, List.mem_map, List.mem_filter, decide_eq_true_eq]
  constructor
  · rintro ⟨c, ⟨hc, ht⟩, rfl⟩
    exact ⟨c, hc, rfl, ht⟩
  · rintro ⟨c, hc, rfl, ht⟩
    exact ⟨c, ⟨hc, ht⟩, rfl⟩

theorem checkTimeouts_conns (now thr : Int) (st : HBState)
    (hnd : (st.conns.map HBConn.sid).Nodup) :
    (checkTimeouts now thr st).conns =
      st.conns.filter fun c => decide (now - c.lastPing ≤ thr) := by
  rw [checkTimeouts, (foldl_evictOne _ _).1]
  apply List.filter_congr
  intro c hc
  by_cases hmem : c.sid ∈ timedOutSids now thr st.conns
  · obtain ⟨c', hc', hsid, ht⟩ := mem_timedOutSids.mp hmem
    have hceq : c' = c := List.inj_on_of_nodup_map hnd hc' hc hsid
    subst hceq
    have hgt : ¬(now - c'.lastPing ≤ thr) := by omega
    simp [hmem, hgt]
  · have hle : now - c.lastPing ≤ thr := by
      by_contra hgt
      exact hmem (mem_timedOutSids.mpr ⟨c, hc, rfl, by omega⟩)
    simp [hmem, hle]

theorem checkTimeouts_pending (now thr : Int) (st : HBState) :
    (checkTimeouts now thr st).pending =
      st.pending.filter fun p => !((timedOutSids now thr st.conns).contains p.1) :=
  (foldl_evictOne _ _).2

theorem handlePong_absent (sid : String) (tp : Int) (st : HBState)
    (hc : ∀ c ∈ st.conns, c.sid ≠ sid) (hp : ∀ p ∈ st.pending, p.1 ≠ sid) :
    handlePong sid tp st = st := by
  unfold handlePong
  have hany : (st.conns.any fun c => c.sid == sid) = false := by
    rw [List.any_eq_false]
    intro c hcm
    simpa using hc c hcm
  have hfil : (st.pending.filter fun p => !(p.1 == sid)) = st.pending := by
    rw [List.filter_eq_self]
    intro p hpm
    simpa using hp p hpm
  simp [hany, hfil]

theorem handlePong_conns_mem (sid : String) (tp t : Int) (st : HBState)
    (hmem : HBConn.mk sid t ∈ st.conns) :
    HBConn.mk sid tp ∈ (handlePong sid tp st).conns := by
  have hany : (st.conns.any fun c => c.sid == sid) = true :=
    List.any_eq_true.mpr ⟨⟨sid, t⟩, hmem, by simp⟩
  have himg := List.mem_map_of_mem
    (fun c : HBConn => if c.sid == sid then HBConn.mk c.sid tp else c) hmem
  simp only [handlePong, hany, if_true]
  simpa using himg

theorem handlePong_conns_sids (sid : String) (tp : Int) (st : HBState) :
    (handlePong sid tp st).conns.map HBConn.sid = st.conns.map HBConn.sid := by
  unfold handlePong
  cases hany : st.conns.any fun c => c.sid == sid
  · simp [hany]
  · simp only [hany, if_true, List.map_map]
    apply List.map_congr_left
    intro c _
    by_cases h : c.sid = sid <;> simp [h]

theorem checkTimeouts_sids_nodup (now thr : Int) (st : HBState)
    (hnd : (st.conns.map HBConn.sid).Nodup) :
    ((checkTimeouts now thr st).conns.map HBConn.sid).Nodup := by
  rw [checkTimeouts_conns now thr st hnd]
  exact List.Nodup.sublist (List.Sublist.map _ (List.filter_sublist _)) hnd

/-- **C6.** For a registered connection whose `last_ping` is `t0` and a reap
check at time `now`: the connection survives the check exactly when the
elapsed time does not exceed the timeout threshold (so it is evicted once the
threshold is strictly exceeded and never before); a pong handled for a session
the check just evicted is a no-op; and a connection that answers every probe
within the threshold survives any number of monitor rounds. -/
theorem heartbeat_eviction_boundary (sid : String) (t0 thr now : Int)
    (st : HBState) (hnd : (st.conns.map HBConn.sid).Nodup)
    (hmem : HBConn.mk sid t0 ∈ st.conns) :
    (HBConn.mk sid t0 ∈ (checkTimeouts now thr st).conns ↔ now - t0 ≤ thr) ∧
    (thr < now - t0 → ∀ tp,
      handlePong sid tp (checkTimeouts now thr st) = checkTimeouts now thr st) ∧
    (∀ rounds : List (Int × Int × Int), (∀ r ∈ rounds, r.2.2 - r.2.1 ≤ thr) →
      ∃ t, HBConn.mk sid t ∈ (runRounds sid thr st rounds).conns) := by
  refine ⟨?_, ?_, ?_⟩
  · rw [checkTimeouts_conns now thr st hnd, List.mem_filter]
    simp [hmem]
  · intro hgt tp
    apply handlePong_absent
    · intro c hcm hsid
      rw [checkTimeouts_conns now thr st hnd, List.mem_filter] at hcm
      have hceq : c = HBConn.mk sid t0 :=
        List.inj_on_of_nodup_map hnd hcm.1 hmem (by simpa using hsid)
      rw [hceq] at hcm
      have hok := hcm.2
      simp only [decide_eq_true_eq] at hok
      omega
    · intro p hpm hsid
      rw [checkTimeouts_pending] at hpm
      have hp2 := (List.mem_filter.mp hpm).2
      have hsidmem : sid ∈ timedOutSids now thr st.conns :=
        mem_timedOutSids.mpr ⟨⟨sid, t0⟩, hmem, rfl, hgt⟩
      rw [hsid] at hp2
      simp [hsidmem] at hp2
  · have step : ∀ rounds : List (Int × Int × Int), ∀ s : HBState,
        (s.conns.map HBConn.sid).Nodup → (∃ t, HBConn.mk sid t ∈ s.conns) →
        (∀ r ∈ rounds, r.2.2 - r.2.1 ≤ thr) →
        ∃ t, HBConn.mk sid t ∈ (runRounds sid thr s rounds).conns := by
      intro rounds
      induction rounds with
      | nil =>
        intro s _ hex _
        exact hex
      | cons r rest ih =>
        intro s hndS hex hok
        obtain ⟨t, ht⟩ := hex
        have hsend : (sendPings r.1 s).conns = s.conns := rfl
        have hmem2 : HBConn.mk sid r.2.1 ∈ (handlePong sid r.2.1 (sendPings r.1 s)).conns :=
          handlePong_conns_mem sid r.2.1 t _ (by rw [hsend]; exact ht)
        have hnd2 : ((handlePong sid r.2.1 (sendPings r.1 s)).conns.map HBConn.sid).Nodup := by
          rw [handlePong_conns_sids, hsend]
          exact hndS
        have hmem3 : HBConn.mk sid r.2.1 ∈
            (checkTimeouts r.2.2 thr (handlePong sid r.2.1 (sendPings r.1 s))).conns := by
          rw [checkTimeouts_conns _ _ _ hnd2, List.mem_filter]
          refine ⟨hmem2, ?_⟩
          have := hok r (List.mem_cons_self r rest)
          simpa using this
        have hnd3 := checkTimeouts_sids_nodup r.2.2 thr _ hnd2
        exact ih _ hnd3 ⟨r.2.1, hmem3⟩ (fun r' hr' => hok r' (List.mem_cons_of_mem r hr'))
    intro rounds hok
    exact step rounds st hnd ⟨t0, hmem⟩ hok

/-- Witness for `heartbeat_eviction_boundary`: a connection last answering at
time 0 with threshold 300 survives a check at time 300, is gone from the check
at time 301, a pong after that eviction is a no-op, and answering each of two
rounds in time keeps the connection alive. -/
theorem heartbeat_eviction_boundary_witness :
    (HBConn.mk "s1" 0 ∈ (checkTimeouts 300 300 ⟨[⟨"s1", 0⟩], []⟩).conns) ∧
    (HBConn.mk "s1" 0 ∉ (checkTimeouts 301 300 ⟨[⟨"s1", 0⟩], []⟩).conns) ∧
    handlePong "s1" 302 (checkTimeouts 301 300 ⟨[⟨"s1", 0⟩], []⟩) =
      checkTimeouts 301 300 ⟨[⟨"s1", 0⟩], []⟩ ∧
    (∃ t, HBConn.mk "s1" t ∈
      (runRounds "s1" 300 ⟨[⟨"s1", 0⟩], []⟩ [(30, 31, 60), (330, 331, 360)]).conns) := by
  have h := heartbeat_eviction_boundary "s1" 0 300 300 ⟨[⟨"s1", 0⟩], []⟩
    (by decide) (by decide)
  have h' := heartbeat_eviction_boundary "s1" 0 300 301 ⟨[⟨"s1", 0⟩], []⟩
    (by decide) (by decide)
  refine ⟨h.1.mpr (by decide), ?_, h'.2.1 (by decide) 302, ?_⟩
  · intro hcon
    have := h'.1.mp hcon
    omega
  · exact h.2.2 [(30, 31, 60), (330, 331, 360)] (by decide)

/-! ### Association-table lemmas -/
theorem lookupA_cons {β : Type _} (k : String) (p : String × β)
    (rest : List (String × β)) :
    lookupA k (p :: rest) = if p.1 = k then some p.2 else lookupA k rest :=
  rfl

theorem lookupA_eq_none_iff {β : Type _} (k : String) (l : List (String × β)) :
    lookupA k l = none ↔ k ∉ l.map Prod.fst := by
  induction l with
  | nil => simp [lookupA]
  | cons p rest ih =>
    rw [lookupA_cons]
    by_cases h : p.1 = k
    · simp [h]
    · have hne : ¬ k = p.1 := fun hk => h hk.symm
      simp [h, ih, hne]

theorem lookupA_mem_keys {β : Type _} {k : String} {v : β}
    {l : List (String × β)} (h : lookupA k l = some v) : k ∈ l.map Prod.fst := by
  by_contra hk
  rw [← lookupA_eq_none_iff] at hk
  rw [hk] at h
  exact Option.noConfusion h

theorem lookupA_mem {β : Type _} {k : String} {v : β} {l : List (String × β)}
    (h : lookupA k l = some v) : (k, v) ∈ l := by
  induction l with
  | nil => exact Option.noConfusion h
  | cons p rest ih =>
    rw [lookupA_cons] at h
    by_cases hp : p.1 = k
    · rw [if_pos hp] at h
      have hv : p.2 = v := Option.some.inj h
      have hpk : p = (k, v) := by
        cases p
        simp_all
      rw [hpk]
      exact List.mem_cons_self _ _
    · rw [if_neg hp] at h
      exact List.mem_cons_of_mem p (ih h)

theorem lookupA_append_left {β : Type _} {k : String} {v : β}
    {l l' : List (String × β)} (h : lookupA k l = some v) :
    lookupA k (l ++ l') = some v := by
  induction l with
  | nil => exact Option.noConfusion h
  | cons p rest ih =>
    rw [lookupA_cons] at h
    rw [List.cons_append, lookupA_cons]
    by_cases hp : p.1 = k
    · rwa [if_pos hp] at h ⊢
    · rw [if_neg hp] at h ⊢
      exact ih h

theorem lookupA_append_right {β : Type _} {k : String}
    {l l' : List (String × β)} (h : k ∉ l.map Prod.fst) :
    lookupA k (l ++ l') = lookupA k l' := by
  induction l with
  | nil => rfl
  | cons p rest ih =>
    simp only [List.map_cons, List.mem_cons] at h
    push_neg at h
    rw [List.cons_append, lookupA_cons, if_neg (fun hp => h.1 hp.symm)]
    exact ih h.2

theorem lookupA_updateA_self {β : Type _} {k : String} {v : β} (w : β)
    {l : List (String × β)} (h : lookupA k l = some v) :
    lookupA k (updateA k w l) = some w := by
  induction l with
  | nil => exact Option.noConfusion h
  | cons p rest ih =>
    rw [lookupA_cons] at h
    rw [updateA, List.map_cons]
    by_cases hp : p.1 = k
    · rw [if_pos hp, lookupA_cons, if_pos rfl]
    · rw [if_neg hp] at h
      rw [if_neg hp, lookupA_cons, if_neg hp]
      exact ih h

theorem lookupA_updateA_ne {β : Type _} {k k' : String} (v : β)
    (l : List (String × β)) (h : k' ≠ k) :
    lookupA k' (updateA k v l) = lookupA k' l := by
  induction l with
  | nil => rfl
  | cons p rest ih =>
    rw [updateA, List.map_cons, lookupA_cons]
    by_cases hp : p.1 = k
    · rw [if_pos hp, lookupA_cons,
        if_neg (show ¬ (k, v).1 = k' from fun hk => h hk.symm),
        if_neg (show ¬ p.1 = k' from by rw [hp]; exact fun hk => h hk.symm)]
      exact ih
    · rw [if_neg hp, lookupA_cons]
      by_cases hp' : p.1 = k'
      · rw [if_pos hp', if_pos hp']
      · rw [if_neg hp', if_neg hp']
        exact ih

theorem lookupA_deleteA_ne {β : Type _} {k k' : String}
    (l : List (String × β)) (h : k' ≠ k) :
    lookupA k' (deleteA k l) = lookupA k' l := by
  induction l with
  | nil => rfl
  | cons p rest ih =>
    rw [lookupA_cons]
    by_cases hp : p.1 = k
    · rw [deleteA, List.filter_cons_of_neg (by simp [hp]),
        if_neg (show ¬ p.1 = k' from by rw [hp]; exact fun hk => h hk.symm)]
      exact ih
    · rw [deleteA, List.filter_cons_of_pos (by simp [hp]), lookupA_cons]
      by_cases hp' : p.1 = k'
      · rw [if_pos hp', if_pos hp']
      · rw [if_neg hp', if_neg hp']
        exact ih

theorem keys_updateA {β : Type _} (k : String) (v : β) (l : List (String × β)) :
    (updateA k v l).map Prod.fst = l.map Prod.fst := by
  induction l with
  | nil => rfl
  | cons p rest ih =>
    unfold updateA at ih ⊢
    by_cases hp : p.1 = k <;> simp [hp, ih]

theorem mem_updateA {β : Type _} {k : String} {v : β} {l : List (String × β)}
    {x : String × β} (h : x ∈ updateA k v l) :
    (x ∈ l ∧ x.1 ≠ k) ∨ x = (k, v) := by
  unfold updateA at h
  obtain ⟨p, hp, heq⟩ := List.mem_map.mp h
  by_cases hk : p.1 = k
  · right
    rw [← heq, if_pos hk]
  · left
    rw [← heq, if_neg hk]
    exact ⟨hp, hk⟩

theorem mem_deleteA {β : Type _} {k : String} {l : List (String × β)}
    {x : String × β} (h : x ∈ deleteA k l) : x ∈ l ∧ x.1 ≠ k := by
  unfold deleteA at h
  have := List.mem_filter.mp h
  refine ⟨this.1, ?_⟩
  simpa using this.2

theorem keys_deleteA_sublist {β : Type _} (k : String) (l : List (String × β)) :
    ((deleteA k l).map Prod.fst).Sublist (l.map Prod.fst) :=
  List.Sublist.map _ (List.filter_sublist l)

theorem inv_empty : Inv emptyManager := by
  constructor <;> simp [emptyManager, activeSids]

theorem inv_connect (sid uid : String) {st : ManagerState} (h : Inv st)
    (hfresh : sid ∉ activeSids st) : Inv (connect sid uid st) := by
  have hactive : ∀ k v, lookupA k st.active = some v →
      lookupA k (st.active ++ [(sid, uid)]) = some v :=
    fun k v hk => lookupA_append_left hk
  have hsidlook : lookupA sid (st.active ++ [(sid, uid)]) = some uid := by
    rw [lookupA_append_right (by simpa [activeSids] using hfresh)]
    simp [lookupA]
  have hnodup : ((st.active ++ [(sid, uid)]).map Prod.fst).Nodup := by
    rw [List.map_append, List.nodup_append]
    refine ⟨h.activeNodup, by simp, ?_⟩
    intro a ha hb
    simp only [List.map_cons, List.map_nil, List.mem_singleton] at hb
    subst hb
    exact hfresh ha
  cases hbl : lookupA uid st.userConns with
  | none =>
    have hieq : connect sid uid st =
        ⟨st.active ++ [(sid, uid)], st.userConns ++ [(uid, [sid])]⟩ := by
      unfold connect
      rw [hbl]
    rw [hieq]
    have huidnot : uid ∉ st.userConns.map Prod.fst := (lookupA_eq_none_iff _ _).mp hbl
    constructor
    · exact hnodup
    · show ((st.userConns ++ [(uid, [sid])]).map Prod.fst).Nodup
      rw [List.map_append, List.nodup_append]
      refine ⟨h.userKeysNodup, by simp, ?_⟩
      intro a ha hb
      simp only [List.map_cons, List.map_nil, List.mem_singleton] at hb
      subst hb
      exact huidnot ha
    · intro uid' sids' hmem
      rcases List.mem_append.mp hmem with hold | hnew
      · exact h.bucketsNonempty uid' sids' hold
      · rw [List.mem_singleton, Prod.mk.injEq] at hnew
        rw [hnew.2]
        simp
    · intro uid' sids' hmem
      rcases List.mem_append.mp hmem with hold | hnew
      · exact h.bucketsNodup uid' sids' hold
      · rw [List.mem_singleton, Prod.mk.injEq] at hnew
        rw [hnew.2]
        simp
    · intro uid' sids' hmem sid' hsid'
      rcases List.mem_append.mp hmem with hold | hnew
      · exact hactive _ _ (h.bucketsSound uid' sids' hold sid' hsid')
      · rw [List.mem_singleton, Prod.mk.injEq] at hnew
        rw [hnew.2, List.mem_singleton] at hsid'
        rw [hnew.1, hsid']
        exact hsidlook
    · intro sid' uid' hmem
      rcases List.mem_append.mp hmem with hold | hnew
      · obtain ⟨sids', hl, hm⟩ := h.activeIndexed sid' uid' hold
        exact ⟨sids', lookupA_append_left hl, hm⟩
      · rw [List.mem_singleton, Prod.mk.injEq] at hnew
        rw [hnew.1, hnew.2]
        refine ⟨[sid], ?_, by simp⟩
        rw [lookupA_append_right huidnot]
        simp [lookupA]
  | some sids =>
    have hieq : connect sid uid st =
        ⟨st.active ++ [(sid, uid)], updateA uid (sids ++ [sid]) st.userConns⟩ := by
      unfold connect
      rw [hbl]
    rw [hieq]
    constructor
    · exact hnodup
    · show ((updateA uid (sids ++ [sid]) st.userConns).map Prod.fst).Nodup
      rw [keys_updateA]
      exact h.userKeysNodup
    · intro uid' sids' hmem
      rcases mem_updateA hmem with ⟨hold, _⟩ | hnew
      · exact h.bucketsNonempty uid' sids' hold
      · rw [Prod.mk.injEq] at hnew
        rw [hnew.2]
        simp
    · intro uid' sids' hmem
      rcases mem_updateA hmem with ⟨hold, _⟩ | hnew
      · exact h.bucketsNodup uid' sids' hold
      · rw [Prod.mk.injEq] at hnew
        rw [hnew.2, List.nodup_append]
        refine ⟨h.bucketsNodup uid sids (lookupA_mem hbl), by simp, ?_⟩
        intro a ha hb
        rw [List.mem_singleton] at hb
        subst hb
        exact hfresh (by
          simpa [activeSids] using
            lookupA_mem_keys (h.bucketsSound uid sids (lookupA_mem hbl) a ha))
    · intro uid' sids' hmem sid' hsid'
      rcases mem_updateA hmem with ⟨hold, _⟩ | hnew
      · exact hactive _ _ (h.bucketsSound uid' sids' hold sid' hsid')
      · rw [Prod.mk.injEq] at hnew
        rw [hnew.2] at hsid'
        rw [hnew.1]
        rcases List.mem_append.mp hsid' with hin | hin
        · exact hactive _ _ (h.bucketsSound uid sids (lookupA_mem hbl) sid' hin)
        · rw [List.mem_singleton] at hin
          rw [hin]
          exact hsidlook
    · intro sid' uid' hmem
      rcases List.mem_append.mp hmem with hold | hnew
      · obtain ⟨sids', hl, hm⟩ := h.activeIndexed sid' uid' hold
        by_cases huid : uid' = uid
        · rw [huid] at hl ⊢
          rw [hbl] at hl
          obtain rfl := Option.some.inj hl
          exact ⟨sids ++ [sid], lookupA_updateA_self _ hbl, by simp [hm]⟩
        · exact ⟨sids', by rw [lookupA_updateA_ne _ _ huid]; exact hl, hm⟩
      · rw [List.mem_singleton, Prod.mk.injEq] at hnew
        rw [hnew.1, hnew.2]
        exact ⟨sids ++ [sid], lookupA_updateA_self _ hbl, by simp⟩

theorem inv_disconnect (sid : String) {st : ManagerState} (h : Inv st) :
    Inv (disconnectSession sid st) := by
  cases hla : lookupA sid st.active with
  | none =>
    have hid : disconnectSession sid st = st := by
      unfold disconnectSession
      rw [hla]
    rw [hid]
    exact h
  | some uid =>
    have hds : disconnectSession sid st = removeConnection sid uid st := by
      unfold disconnectSession
      rw [hla]
    obtain ⟨sids0, hbl, hsid0⟩ := h.activeIndexed sid uid (lookupA_mem hla)
    have hbl_mem : (uid, sids0) ∈ st.userConns := lookupA_mem hbl
    have hs0nd : sids0.Nodup := h.bucketsNodup uid sids0 hbl_mem
    have hOtherNe : ∀ uid'' sids'', (uid'', sids'') ∈ st.userConns → uid'' ≠ uid →
        ∀ sid'' ∈ sids'', sid'' ≠ sid := by
      intro uid'' sids'' hm hne sid'' hs'' heq
      apply hne
      have hss := h.bucketsSound uid'' sids'' hm sid'' hs''
      rw [heq, hla] at hss
      exact (Option.some.inj hss).symm
    have hActNodup : ((deleteA sid st.active).map Prod.fst).Nodup :=
      List.Nodup.sublist (keys_deleteA_sublist sid st.active) h.activeNodup
    have hrc : removeConnection sid uid st =
        ⟨deleteA sid st.active,
         if sids0.erase sid = [] then deleteA uid st.userConns
         else updateA uid (sids0.erase sid) st.userConns⟩ := by
      unfold removeConnection
      rw [hbl]
    rw [hds, hrc]
    by_cases hrem : sids0.erase sid = []
    · rw [if_pos hrem]
      constructor
    -- the bucket became empty and was deleted
      · exact hActNodup
      · exact List.Nodup.sublist (keys_deleteA_sublist uid st.userConns) h.userKeysNodup
      · intro uid' sids' hmem
        exact h.bucketsNonempty uid' sids' (mem_deleteA hmem).1
      · intro uid' sids' hmem
        exact h.bucketsNodup uid' sids' (mem_deleteA hmem).1
      · intro uid' sids' hmem sid'' hsid''
        obtain ⟨hold, hne⟩ := mem_deleteA hmem
        have hne' : sid'' ≠ sid := hOtherNe uid' sids' hold hne sid'' hsid''
        rw [lookupA_deleteA_ne _ hne']
        exact h.bucketsSound uid' sids' hold sid'' hsid''
      · intro sid' uid' hmem
        obtain ⟨hold, hne⟩ := mem_deleteA hmem
        obtain ⟨sids', hl', hm'⟩ := h.activeIndexed sid' uid' hold
        by_cases huid : uid' = uid
        · rw [huid] at hl'
          rw [hbl] at hl'
          obtain rfl := Option.some.inj hl'
          have : sid' ∈ sids0.erase sid := (List.mem_erase_of_ne hne).mpr hm'
          rw [hrem] at this
          exact absurd this (List.not_mem_nil sid')
        · refine ⟨sids', ?_, hm'⟩
          rw [lookupA_deleteA_ne _ huid]
          exact hl'
    · rw [if_neg hrem]
      constructor
    -- the bucket was updated in place
      · exact hActNodup
      · show ((updateA uid (sids0.erase sid) st.userConns).map Prod.fst).Nodup
        rw [keys_updateA]
        exact h.userKeysNodup
      · intro uid' sids' hmem
        rcases mem_updateA hmem with ⟨hold, _⟩ | hnew
        · exact h.bucketsNonempty uid' sids' hold
        · rw [Prod.mk.injEq] at hnew
          rw [hnew.2]
          exact hrem
      · intro uid' sids' hmem
        rcases mem_updateA hmem with ⟨hold, _⟩ | hnew
        · exact h.bucketsNodup uid' sids' hold
        · rw [Prod.mk.injEq] at hnew
          rw [hnew.2]
          exact List.Nodup.erase sid hs0nd
      · intro uid' sids' hmem sid'' hsid''
        rcases mem_updateA hmem with ⟨hold, hne⟩ | hnew
        · have hne' : sid'' ≠ sid := hOtherNe uid' sids' hold hne sid'' hsid''
          rw [lookupA_deleteA_ne _ hne']
          exact h.bucketsSound uid' sids' hold sid'' hsid''
        · rw [Prod.mk.injEq] at hnew
          rw [hnew.2] at hsid''
          obtain ⟨hne', hin⟩ := (List.Nodup.mem_erase_iff hs0nd).mp hsid''
          rw [hnew.1, lookupA_deleteA_ne _ hne']
          exact h.bucketsSound uid sids0 hbl_mem sid'' hin
      · intro sid' uid' hmem
        obtain ⟨hold, hne⟩ := mem_deleteA hmem
        obtain ⟨sids', hl', hm'⟩ := h.activeIndexed sid' uid' hold
        by_cases huid : uid' = uid
        · rw [huid] at hl' ⊢
          rw [hbl] at hl'
          obtain rfl := Option.some.inj hl'
          refine ⟨sids0.erase sid, lookupA_updateA_self _ hbl, ?_⟩
          exact (List.mem_erase_of_ne hne).mpr hm'
        · refine ⟨sids', ?_, hm'⟩
          rw [lookupA_updateA_ne _ _ huid]
          exact hl'

/-! ### Session-id trace of an operation sequence -/
theorem activeSids_connect (sid uid : String) (st : ManagerState) :
    activeSids (connect sid uid st) = activeSids st ++ [sid] := by
  simp [connect, activeSids]

theorem map_fst_filter_key {β : Type _} (k : String) (l : List (String × β)) :
    (deleteA k l).map Prod.fst = (l.map Prod.fst).filter fun s => !(s == k) := by
  induction l with
  | nil => rfl
  | cons p rest ih =>
    by_cases hp : p.1 = k <;> simp [deleteA, hp, ih] <;> simpa [deleteA] using ih

theorem activeSids_disconnect (sid : String) (st : ManagerState) :
    activeSids (disconnectSession sid st) =
      (activeSids st).filter fun s => !(s == sid) := by
  cases hla : lookupA sid st.active with
  | none =>
    have hid : disconnectSession sid st = st := by
      unfold disconnectSession
      rw [hla]
    have hnotin : sid ∉ activeSids st := by
      simpa [activeSids] using (lookupA_eq_none_iff _ _).mp hla
    rw [hid]
    symm
    rw [List.filter_eq_self]
    intro a ha
    simp only [Bool.not_eq_eq_eq_not, Bool.not_true, beq_eq_false_iff_ne, ne_eq]
    intro heq
    subst heq
    exact hnotin ha
  | some uid =>
    have hds : disconnectSession sid st = removeConnection sid uid st := by
      unfold disconnectSession
      rw [hla]
    have hact : (removeConnection sid uid st).active = deleteA sid st.active := rfl
    rw [hds]
    show ((removeConnection sid uid st).active).map Prod.fst = _
    rw [hact]
    exact map_fst_filter_key sid st.active

theorem runOps_activeSids (ops : List RegOp) : ∀ st : ManagerState,
    (connectSids ops).Nodup →
    (∀ s ∈ connectSids ops, s ∉ activeSids st) →
    activeSids (runOps st ops) =
      ((activeSids st).filter fun s => !(decide (RegOp.disconnect s ∈ ops))) ++
        unmatchedConnects ops := by
  induction ops with
  | nil =>
    intro st _ _
    simp [runOps, unmatchedConnects]
  | cons op rest ih =>
    intro st hnd hfresh
    cases op with
    | connect sid uid =>
      obtain ⟨hnotin, hnd'⟩ := List.nodup_cons.mp (by simpa [connectSids] using hnd)
      have hfresh' : ∀ s ∈ connectSids rest, s ∉ activeSids (connect sid uid st) := by
        intro s hs
        rw [activeSids_connect]
        simp only [List.mem_append, List.mem_singleton]
        push_neg
        refine ⟨hfresh s (by simp [connectSids, hs]), ?_⟩
        intro heq
        rw [heq] at hs
        exact hnotin hs
      have hih := ih (connect sid uid st) hnd' hfresh'
      show activeSids (runOps (connect sid uid st) rest) = _
      rw [hih, activeSids_connect, List.filter_append]
      have hfc : ((activeSids st).filter fun s => !(decide (RegOp.disconnect s ∈ rest)))
          = (activeSids st).filter
              fun s => !(decide (RegOp.disconnect s ∈ RegOp.connect sid uid :: rest)) := by
        apply List.filter_congr
        intro s _
        simp [List.mem_cons]
      rw [hfc, List.append_assoc]
      congr 1
      by_cases hd : RegOp.disconnect sid ∈ rest <;>
        simp [unmatchedConnects, hd]
    | disconnect sid =>
      have hnd' : (connectSids rest).Nodup := by simpa [connectSids] using hnd
      have hfresh' : ∀ s ∈ connectSids rest, s ∉ activeSids (disconnectSession sid st) := by
        intro s hs hmem
        rw [activeSids_disconnect] at hmem
        exact hfresh s (by simpa [connectSids] using hs) (List.mem_of_mem_filter hmem)
      have hih := ih (disconnectSession sid st) hnd' hfresh'
      show activeSids (runOps (disconnectSession sid st) rest) = _
      rw [hih, activeSids_disconnect, List.filter_filter]
      congr 1
      apply List.filter_congr
      intro s _
      by_cases h1 : s = sid <;> by_cases h2 : RegOp.disconnect s ∈ rest <;>
        simp [h1, h2, List.mem_cons]

theorem inv_runOps (ops : List RegOp) : ∀ st : ManagerState, Inv st →
    (∀ s ∈ connectSids ops, s ∉ activeSids st) → (connectSids ops).Nodup →
    Inv (runOps st ops) := by
  induction ops with
  | nil =>
    intro st h _ _
    exact h
  | cons op rest ih =>
    intro st hinv hfresh hnd
    cases op with
    | connect sid uid =>
      obtain ⟨hnotin, hnd'⟩ := List.nodup_cons.mp (by simpa [connectSids] using hnd)
      refine ih _ (inv_connect sid uid hinv (hfresh sid (by simp [connectSids]))) ?_ hnd'
      intro s hs
      rw [activeSids_connect]
      simp only [List.mem_append, List.mem_singleton]
      push_neg
      refine ⟨hfresh s (by simp [connectSids, hs]), ?_⟩
      intro heq
      rw [heq] at hs
      exact hnotin hs
    | disconnect sid =>
      refine ih _ (inv_disconnect sid hinv) ?_ (by simpa [connectSids] using hnd)
      intro s hs hmem
      rw [activeSids_disconnect] at hmem
      exact hfresh s (by simpa [connectSids] using hs) (List.mem_of_mem_filter hmem)

/-- **C5.** For every finite sequence of connect/disconnect operations on the
registry (with the fresh, never-reused session ids `uuid4` guarantees),
`get_connection_count` equals the number of connects that have no matching
later disconnect, and in the resulting state every user bucket is non-empty
with every listed session id present in the primary table. -/
theorem registry_count_and_buckets (ops : List RegOp)
    (hnd : (connectSids ops).Nodup) :
    getConnectionCount (runOps emptyManager ops) = (unmatchedConnects ops).length ∧
    (∀ uid sids, (uid, sids) ∈ (runOps emptyManager ops).userConns →
      sids ≠ [] ∧ ∀ sid ∈ sids, sid ∈ activeSids (runOps emptyManager ops)) := by
  have hinv : Inv (runOps emptyManager ops) :=
    inv_runOps ops emptyManager inv_empty
      (by intro s _ hmem; simp [emptyManager, activeSids] at hmem) hnd
  constructor
  · have htrace := runOps_activeSids ops emptyManager hnd
      (by intro s _ hmem; simp [emptyManager, activeSids] at hmem)
    have heq : activeSids (runOps emptyManager ops) = unmatchedConnects ops := by
      rw [htrace]
      simp [emptyManager, activeSids]
    have hlen := congrArg List.length heq
    simpa [activeSids, getConnectionCount] using hlen
  · intro uid sids hmem
    refine ⟨hinv.bucketsNonempty uid sids hmem, ?_⟩
    intro sid hsid
    simpa [activeSids] using
      lookupA_mem_keys (hinv.bucketsSound uid sids hmem sid hsid)

/-- Witness for `registry_count_and_buckets`: after the demo sequence the
count is 1 — exactly the one connect without a matching disconnect — and the
surviving bucket for user `u` is non-empty and points at the primary table. -/
theorem registry_count_and_buckets_witness :
    getConnectionCount (runOps emptyManager demoOps) =
      (unmatchedConnects demoOps).length ∧
    getConnectionCount (runOps emptyManager demoOps) = 1 ∧
    (runOps emptyManager demoOps).userConns = [("u", ["b"])] := by
  refine ⟨(registry_count_and_buckets demoOps (by decide)).1, by decide, by decide⟩

end Yohan
